import Mathlib

/-!
Shallow embedding of the number-guessing game in `src/main.rs` and
verification of its specification.

The program draws a secret in `1..=100`, then loops: print a prompt, read one
line from stdin, trim it, parse it as a `u32`; on parse failure `continue`;
otherwise compare the guess to the secret and print "Too small!", "Too big!",
or "You win!" (the last followed by `break`).

Modelling decisions (all from the source, with Rust stdlib semantics):
* `u32` values are `Nat` with the explicit bound `< 2^32` enforced where the
  code enforces it (in `parse`); the secret is in `[1,100]` so no arithmetic
  overflows.
* `io::stdin().read_line(&mut guess).expect("Failed to read line")`:
  a successful read appends the line (newline included) to the fresh empty
  buffer; at end of stream `read_line` returns `Ok(0)` and leaves the buffer
  empty, so `expect` does not fire and the iteration proceeds with the empty
  string; only an `Err` from the device makes `expect` abort the program with
  the message "Failed to read line".  The input stream is therefore a list of
  read outcomes `InEvent`: `line s` for a successful read delivering `s`
  (an end-of-stream read is `line ""`), `ioErr` for a device error.
* The output stream is the list of lines printed by `println!`.
* The random source is external (`rand::thread_rng()`); it is modelled as an
  arbitrary `Nat` outcome `r`, and `gen_range` maps it into the requested
  inclusive range, per the documented contract of `rand`.
-/

namespace Guess

/-- Rust `char::is_whitespace`: the Unicode `White_Space` code points. -/
def rustIsWhitespace (c : Char) : Bool :=
  [0x09, 0x0A, 0x0B, 0x0C, 0x0D, 0x20, 0x85, 0xA0, 0x1680,
   0x2000, 0x2001, 0x2002, 0x2003, 0x2004, 0x2005, 0x2006, 0x2007, 0x2008,
   0x2009, 0x200A, 0x2028, 0x2029, 0x202F, 0x205F, 0x3000].contains c.toNat

/-- `str::trim` on the underlying character list: remove leading and trailing
whitespace. -/
def trimChars (cs : List Char) : List Char :=
  (((cs.dropWhile rustIsWhitespace).reverse.dropWhile rustIsWhitespace)).reverse

/-- Rust `str::trim`. -/
def trim (s : String) : String :=
  String.mk (trimChars s.data)

/-- ASCII digit test, as used by `u32::from_str`. -/
def isAsciiDigit (c : Char) : Bool :=
  '0' ≤ c && c ≤ '9'

/-- Numeric value of a decimal digit character. -/
def digitVal (c : Char) : Nat :=
  c.toNat - '0'.toNat

/-- Value of a list of decimal digits, most significant first. -/
def digitsToNat (cs : List Char) : Nat :=
  cs.foldl (fun a c => 10 * a + digitVal c) 0

/-- Drops the optional leading `'+'` sign accepted by `u32::from_str`. -/
def stripPlus : List Char → List Char
  | '+' :: rest => rest
  | cs => cs

/-- Rust `str::parse::<u32>()` (i.e. `u32::from_str`): an optional leading
`'+'`, then a non-empty run of ASCII digits whose value fits in 32 bits;
anything else (empty string, a `'-'` sign, non-digits, overflow) is `Err`,
here `none`. -/
def parse (s : String) : Option Nat :=
  if (stripPlus s.data).isEmpty then none
  else if (stripPlus s.data).all isAsciiDigit then
    if digitsToNat (stripPlus s.data) < 4294967296 then
      some (digitsToNat (stripPlus s.data))
    else none
  else none

/-- `Ord::cmp` on `u32` (`guess.cmp(&secret_number)`), yielding the
`Ordering` enum `Less` / `Greater` / `Equal` (`Ordering.lt` / `.gt` / `.eq`). -/
def cmp (a b : Nat) : Ordering :=
  if a < b then Ordering.lt else if b < a then Ordering.gt else Ordering.eq

/-- Model of `rand::thread_rng().gen_range(lo..=hi)`: the external random
source delivers an arbitrary outcome `r : Nat`, which `gen_range` maps into
the inclusive range `[lo, hi]`, per `rand`'s documented contract for
`start..=end` ranges. -/
def gen_range (lo hi : Nat) (r : Nat) : Nat :=
  lo + r % (hi + 1 - lo)

/-- `let secret_number = rand::thread_rng().gen_range(1..=100)` as a function
of the random outcome `r`. -/
def secret_number (r : Nat) : Nat :=
  gen_range 1 100 r

/-- The prompt printed at the top of every loop iteration. -/
def prompt : String := "Please input your guess."

/-- One outcome of a `read_line` call on stdin: `line s` for `Ok` delivering
the text `s` (an end-of-stream read delivers `""`), `ioErr` for a device
`Err`, which `expect` turns into an abort. -/
inductive InEvent
  | line (s : String)
  | ioErr
  deriving DecidableEq, Repr

/-- Result of running the loop on a finite list of read outcomes:
`won outs unread` — the loop hit `break` after printing `outs`, leaving
`unread` unconsumed; `panicked outs msg` — `expect` aborted the program with
diagnostic `msg` after printing `outs`; `running outs` — every supplied read
outcome was consumed without `break` or abort, i.e. the loop is still going. -/
inductive RunOut
  | won (outs : List String) (unread : List InEvent)
  | panicked (outs : List String) (msg : String)
  | running (outs : List String)
  deriving DecidableEq, Repr

/-- The body of one loop iteration after a successful read of `l`:
trim, parse (parse failure `continue`s with no output), compare to the
secret and print the feedback line; the `Bool` is whether `break` ran. -/
def processLine (secret : Nat) (l : String) : List String × Bool :=
  match parse (trim l) with
  | none => ([], false)
  | some guess =>
    match cmp guess secret with
    | Ordering.lt => (["Too small!"], false)
    | Ordering.gt => (["Too big!"], false)
    | Ordering.eq => (["You win!"], true)

/-- The `loop` of `main`, run over a finite list of read outcomes.  Each
iteration prints `prompt`, performs one read, and either aborts (`ioErr`),
breaks (guess equal to the secret), or continues with the rest. -/
def runGame (secret : Nat) : List InEvent → RunOut
  | [] => RunOut.running []
  | InEvent.ioErr :: _ => RunOut.panicked [prompt] "Failed to read line"
  | InEvent.line l :: rest =>
    match processLine secret l with
    | (o, true) => RunOut.won (prompt :: o) rest
    | (o, false) =>
      match runGame secret rest with
      | RunOut.won outs r => RunOut.won (prompt :: o ++ outs) r
      | RunOut.panicked outs m => RunOut.panicked (prompt :: o ++ outs) m
      | RunOut.running outs => RunOut.running (prompt :: o ++ outs)

/-- Whether the run ended with the `break` after "You win!". -/
def RunOut.isWon : RunOut → Bool
  | RunOut.won _ _ => true
  | _ => false

/-- The lines printed during the run. -/
def outputsOf : RunOut → List String
  | RunOut.won o _ => o
  | RunOut.panicked o _ => o
  | RunOut.running o => o

/-- Prepends the lines printed by one non-breaking iteration to a run's
output, leaving its outcome unchanged. -/
def addOuts (o : List String) : RunOut → RunOut
  | RunOut.won outs r => RunOut.won (o ++ outs) r
  | RunOut.panicked outs m => RunOut.panicked (o ++ outs) m
  | RunOut.running outs => RunOut.running (o ++ outs)

/-- The whole of `main` as a function of the random outcome `r` and the read
outcomes: the banner, the secret-revealing line, then the loop's output,
paired with the loop's result. -/
def runProgram (r : Nat) (events : List InEvent) : List String × RunOut :=
  let secret := secret_number r
  let res := runGame secret events
  ("Guess the number!" :: ("The secret number is: " ++ toString secret) ::
     outputsOf res, res)

/-- The spec's state machine, written from the spec's words (a refinement
target, not from the source): states `{AwaitingInput, Evaluating, Won}`. -/
inductive GameState
  | awaitingInput
  | evaluating
  | won
  deriving DecidableEq, Repr

/-- Labels of the spec's transitions: the parse outcome of one read line, and
the comparison outcome of one parsed guess. -/
inductive Label
  | parseFail
  | parseOk
  | cmpLess
  | cmpGreater
  | cmpEqual
  deriving DecidableEq, Repr

/-- The spec's transition relation, written from the spec's words:
`AwaitingInput → AwaitingInput` on parse failure, `AwaitingInput →
Evaluating` on parse success, `Evaluating → AwaitingInput` on Less/Greater,
`Evaluating → Won` (terminal) on Equal; nothing else is allowed. -/
def specStep : GameState → Label → Option GameState
  | GameState.awaitingInput, Label.parseFail => some GameState.awaitingInput
  | GameState.awaitingInput, Label.parseOk => some GameState.evaluating
  | GameState.evaluating, Label.cmpLess => some GameState.awaitingInput
  | GameState.evaluating, Label.cmpGreater => some GameState.awaitingInput
  | GameState.evaluating, Label.cmpEqual => some GameState.won
  | _, _ => none

/-- Runs the spec machine over a label trace; `none` means a transition the
machine does not allow. -/
def specRun : GameState → List Label → Option GameState
  | st, [] => some st
  | st, a :: as =>
    match specStep st a with
    | none => none
    | some st2 => specRun st2 as

/-- The label trace the source's loop produces on a list of read lines:
each iteration emits its parse outcome and, on success, its comparison
outcome; an Equal comparison breaks the loop, so the trace stops there. -/
def codeLabels (secret : Nat) : List String → List Label
  | [] => []
  | l :: ls =>
    match parse (trim l) with
    | none => Label.parseFail :: codeLabels secret ls
    | some g =>
      Label.parseOk ::
        match cmp g secret with
        | Ordering.lt => Label.cmpLess :: codeLabels secret ls
        | Ordering.gt => Label.cmpGreater :: codeLabels secret ls
        | Ordering.eq => [Label.cmpEqual]

/-! ### Lemmas about the comparison and one loop iteration -/

lemma cmp_lt_iff (a b : Nat) : cmp a b = Ordering.lt ↔ a < b := by
  unfold cmp
  split_ifs with h1 h2 <;> simp_all

lemma cmp_gt_iff (a b : Nat) : cmp a b = Ordering.gt ↔ b < a := by
  unfold cmp
  split_ifs with h1 h2 <;> simp_all
  all_goals omega

lemma cmp_eq_iff (a b : Nat) : cmp a b = Ordering.eq ↔ a = b := by
  unfold cmp
  split_ifs with h1 h2 <;> simp_all
  all_goals omega

lemma cmp_self (a : Nat) : cmp a a = Ordering.eq :=
  (cmp_eq_iff a a).mpr rfl

lemma processLine_none {s : Nat} {l : String} (h : parse (trim l) = none) :
    processLine s l = ([], false) := by
  simp only [processLine, h]

lemma processLine_lt {s g : Nat} {l : String} (h : parse (trim l) = some g)
    (hg : g < s) : processLine s l = (["Too small!"], false) := by
  simp only [processLine, h, (cmp_lt_iff g s).mpr hg]

lemma processLine_gt {s g : Nat} {l : String} (h : parse (trim l) = some g)
    (hg : s < g) : processLine s l = (["Too big!"], false) := by
  simp only [processLine, h, (cmp_gt_iff g s).mpr hg]

lemma processLine_win {s : Nat} {l : String} (h : parse (trim l) = some s) :
    processLine s l = (["You win!"], true) := by
  simp only [processLine, h, cmp_self]

lemma processLine_continue {s : Nat} {l : String} (h : parse (trim l) ≠ some s) :
    ∃ o, processLine s l = (o, false) := by
  cases hp : parse (trim l) with
  | none => exact ⟨[], processLine_none hp⟩
  | some g =>
    have hgs : g ≠ s := fun he => h (he ▸ hp)
    rcases Nat.lt_or_ge g s with hlt | hge
    · exact ⟨_, processLine_lt hp hlt⟩
    · exact ⟨_, processLine_gt hp (lt_of_le_of_ne hge (Ne.symm hgs))⟩

lemma processLine_break {s : Nat} {l : String} {o : List String}
    (h : processLine s l = (o, true)) :
    o = ["You win!"] ∧ parse (trim l) = some s := by
  cases hp : parse (trim l) with
  | none =>
    rw [processLine_none hp] at h
    simp at h
  | some g =>
    rcases Nat.lt_trichotomy g s with hlt | heq | hgt
    · rw [processLine_lt hp hlt] at h
      simp at h
    · subst heq
      rw [processLine_win hp] at h
      exact ⟨(congrArg Prod.fst h).symm, rfl⟩
    · rw [processLine_gt hp hgt] at h
      simp at h

lemma addOuts_isWon (o : List String) (x : RunOut) :
    (addOuts o x).isWon = x.isWon := by
  cases x <;> rfl

lemma outputsOf_addOuts (o : List String) (x : RunOut) :
    outputsOf (addOuts o x) = o ++ outputsOf x := by
  cases x <;> rfl

lemma runGame_cons_break {s : Nat} {l : String} {o : List String}
    (rest : List InEvent) (h : processLine s l = (o, true)) :
    runGame s (InEvent.line l :: rest) = RunOut.won (prompt :: o) rest := by
  simp only [runGame, h]

lemma runGame_cons_continue {s : Nat} {l : String} {o : List String}
    (rest : List InEvent) (h : processLine s l = (o, false)) :
    runGame s (InEvent.line l :: rest) = addOuts (prompt :: o) (runGame s rest) := by
  cases hr : runGame s rest <;>
    simp only [runGame, h, hr, addOuts, List.cons_append]

/-! ### Lemmas about trimming and parsing -/

lemma dropWhile_all_append (p : Char → Bool) (w x : List Char)
    (h : w.all p = true) : (w ++ x).dropWhile p = x.dropWhile p := by
  induction w with
  | nil => rfl
  | cons a w ih =>
    rw [List.all_cons, Bool.and_eq_true] at h
    rw [List.cons_append, List.dropWhile_cons, if_pos h.1, ih h.2]

lemma dropWhile_all_nil (p : Char → Bool) (w : List Char)
    (h : w.all p = true) : w.dropWhile p = [] := by
  have hw := dropWhile_all_append p w [] h
  simpa using hw

lemma trimChars_ws_lead (w cs : List Char) (h : w.all rustIsWhitespace = true) :
    trimChars (w ++ cs) = trimChars cs := by
  unfold trimChars
  rw [dropWhile_all_append _ _ _ h]

lemma trimChars_ws_trail (w cs : List Char) (h : w.all rustIsWhitespace = true) :
    trimChars (cs ++ w) = trimChars cs := by
  unfold trimChars
  rw [List.dropWhile_append]
  by_cases he : (cs.dropWhile rustIsWhitespace).isEmpty
  · rw [if_pos he, dropWhile_all_nil _ w h]
    have hnil : cs.dropWhile rustIsWhitespace = [] := by
      cases hx : cs.dropWhile rustIsWhitespace with
      | nil => rfl
      | cons a t => rw [hx] at he; simp at he
    rw [hnil]
  · rw [if_neg he, List.reverse_append,
      dropWhile_all_append _ _ _ (by rw [List.all_reverse]; exact h)]

lemma trimChars_pad (w₁ w₂ cs : List Char)
    (h₁ : w₁.all rustIsWhitespace = true) (h₂ : w₂.all rustIsWhitespace = true) :
    trimChars (w₁ ++ cs ++ w₂) = trimChars cs := by
  rw [List.append_assoc, trimChars_ws_lead _ _ h₁, trimChars_ws_trail _ _ h₂]

lemma parse_lt_u32 (x : String) (g : Nat) (h : parse x = some g) :
    g < 4294967296 := by
  unfold parse at h
  split_ifs at h with h1 h2 h3
  injection h with h4
  omega

/-! ### Lemmas relating the loop to the spec's state machine -/

lemma specRun_codeLabels (s : Nat) : ∀ ls : List String,
    specRun GameState.awaitingInput (codeLabels s ls) =
      some (if (runGame s (ls.map InEvent.line)).isWon then GameState.won
            else GameState.awaitingInput) := by
  intro ls
  induction ls with
  | nil => rfl
  | cons l ls ih =>
    cases hp : parse (trim l) with
    | none =>
      rw [List.map_cons, runGame_cons_continue _ (processLine_none hp), addOuts_isWon]
      simp only [codeLabels, hp]
      simpa [specRun, specStep] using ih
    | some g =>
      rcases Nat.lt_trichotomy g s with hlt | heq | hgt
      · rw [List.map_cons, runGame_cons_continue _ (processLine_lt hp hlt), addOuts_isWon]
        simp only [codeLabels, hp, (cmp_lt_iff g s).mpr hlt]
        simpa [specRun, specStep] using ih
      · subst heq
        rw [List.map_cons, runGame_cons_break _ (processLine_win hp)]
        simp [codeLabels, hp, cmp_self, specRun, specStep, RunOut.isWon]
      · rw [List.map_cons, runGame_cons_continue _ (processLine_gt hp hgt), addOuts_isWon]
        simp only [codeLabels, hp, (cmp_gt_iff g s).mpr hgt]
        simpa [specRun, specStep] using ih

lemma win_message_mem (s : Nat) : ∀ ls : List String,
    "You win!" ∈ outputsOf (runGame s (ls.map InEvent.line)) →
    ∃ l ∈ ls, parse (trim l) = some s := by
  intro ls
  induction ls with
  | nil =>
    intro h
    simp [runGame, outputsOf] at h
  | cons l ls ih =>
    intro h
    cases hp : parse (trim l) with
    | none =>
      rw [List.map_cons, runGame_cons_continue _ (processLine_none hp),
        outputsOf_addOuts] at h
      simp only [prompt, List.cons_append, List.nil_append, List.mem_cons] at h
      rcases h with h | h
      · exact absurd h (by decide)
      · obtain ⟨x, hx, hpx⟩ := ih h
        exact ⟨x, List.mem_cons_of_mem _ hx, hpx⟩
    | some g =>
      rcases Nat.lt_trichotomy g s with hlt | heq | hgt
      · rw [List.map_cons, runGame_cons_continue _ (processLine_lt hp hlt),
          outputsOf_addOuts] at h
        simp only [prompt, List.cons_append, List.nil_append, List.mem_cons] at h
        rcases h with h | h | h
        · exact absurd h (by decide)
        · exact absurd h (by decide)
        · obtain ⟨x, hx, hpx⟩ := ih h
          exact ⟨x, List.mem_cons_of_mem _ hx, hpx⟩
      · subst heq
        exact ⟨l, List.mem_cons_self l ls, hp⟩
      · rw [List.map_cons, runGame_cons_continue _ (processLine_gt hp hgt),
          outputsOf_addOuts] at h
        simp only [prompt, List.cons_append, List.nil_append, List.mem_cons] at h
        rcases h with h | h | h
        · exact absurd h (by decide)
        · exact absurd h (by decide)
        · obtain ⟨x, hx, hpx⟩ := ih h
          exact ⟨x, List.mem_cons_of_mem _ hx, hpx⟩

lemma won_outputs_end (s : Nat) : ∀ (es : List InEvent) (o : List String)
    (r : List InEvent), runGame s es = RunOut.won o r →
    ∃ p, o = p ++ ["You win!"] := by
  intro es
  induction es with
  | nil =>
    intro o r h
    exact absurd h (by simp [runGame])
  | cons e rest ih =>
    intro o r h
    cases e with
    | ioErr => simp [runGame] at h
    | line l =>
      cases hb : processLine s l with
      | mk o1 b =>
        cases b with
        | true =>
          rw [runGame_cons_break rest hb] at h
          obtain ⟨ho1, _⟩ := processLine_break hb
          cases h
          exact ⟨[prompt], by simp [ho1]⟩
        | false =>
          rw [runGame_cons_continue rest hb] at h
          cases hr : runGame s rest with
          | won o2 r2 =>
            rw [hr] at h
            simp only [addOuts, RunOut.won.injEq] at h
            obtain ⟨p, hp2⟩ := ih o2 r2 hr
            exact ⟨prompt :: o1 ++ p, by rw [← h.1, hp2]; simp⟩
          | panicked o2 m =>
            rw [hr] at h
            simp [addOuts] at h
          | running o2 =>
            rw [hr] at h
            simp [addOuts] at h

/-! ### Claim theorems -/

/-- C1: for every secret `s` in `[1,100]` and every parsed guess `g`,
`guess.cmp(&secret_number)` yields `Less` exactly when `g < s`, `Greater`
exactly when `g > s`, and `Equal` exactly when `g = s`; and when a read line
parses to the secret itself, the iteration prints "You win!" and the loop
breaks, leaving the remaining input unread. -/
theorem compare_and_win_correct (s g : Nat) (hs1 : 1 ≤ s) (hs2 : s ≤ 100) :
    ((cmp g s = Ordering.lt ↔ g < s) ∧ (cmp g s = Ordering.gt ↔ s < g) ∧
      (cmp g s = Ordering.eq ↔ g = s)) ∧
    ∀ (l : String) (rest : List InEvent), parse (trim l) = some g → g = s →
      runGame s (InEvent.line l :: rest) =
        RunOut.won [prompt, "You win!"] rest := by
  refine ⟨⟨cmp_lt_iff g s, cmp_gt_iff g s, cmp_eq_iff g s⟩, ?_⟩
  intro l rest hparse hgs
  subst hgs
  rw [runGame_cons_break rest (processLine_win hparse)]

/-- Witness for C1 at secret 50 and line "50". -/
theorem compare_and_win_correct_check :
    runGame 50 [InEvent.line "50"] = RunOut.won [prompt, "You win!"] [] :=
  (compare_and_win_correct 50 50 (by decide) (by decide)).2 "50" []
    (by decide) rfl

/-- C2: the loop terminates exactly on the first correctly parsed guess equal
to the secret: if the input lines are `pre ++ l :: post` where no line of
`pre` parses to the secret and `l` does, the run breaks right after
processing `l`, leaving exactly `post` unread; and if no supplied line parses
to the secret the loop consumes every line and is still running — there is no
maximum attempt count, so on an endless such stream it never terminates. -/
theorem loop_terminates_iff_secret_guessed (s : Nat) :
    (∀ (pre post : List String) (l : String),
      (∀ x ∈ pre, parse (trim x) ≠ some s) → parse (trim l) = some s →
      ∃ outs, runGame s (List.map InEvent.line (pre ++ l :: post)) =
        RunOut.won outs (List.map InEvent.line post)) ∧
    (∀ ls : List String, (∀ x ∈ ls, parse (trim x) ≠ some s) →
      ∃ outs, runGame s (List.map InEvent.line ls) = RunOut.running outs) := by
  constructor
  · intro pre
    induction pre with
    | nil =>
      intro post l _ hl
      refine ⟨[prompt, "You win!"], ?_⟩
      rw [List.nil_append, List.map_cons,
        runGame_cons_break _ (processLine_win hl)]
    | cons x pre ih =>
      intro post l hpre hl
      obtain ⟨o, ho⟩ := processLine_continue (hpre x (List.mem_cons_self x pre))
      obtain ⟨outs, houts⟩ :=
        ih post l (fun y hy => hpre y (List.mem_cons_of_mem _ hy)) hl
      refine ⟨prompt :: o ++ outs, ?_⟩
      rw [List.cons_append, List.map_cons, runGame_cons_continue _ ho, houts]
      rfl
  · intro ls
    induction ls with
    | nil =>
      intro _
      exact ⟨[], rfl⟩
    | cons x ls ih =>
      intro hls
      obtain ⟨o, ho⟩ := processLine_continue (hls x (List.mem_cons_self x ls))
      obtain ⟨outs, houts⟩ := ih (fun y hy => hls y (List.mem_cons_of_mem _ hy))
      refine ⟨prompt :: o ++ outs, ?_⟩
      rw [List.map_cons, runGame_cons_continue _ ho, houts]
      rfl

/-- Witness for C2: secret 50, lines "25" then "50". -/
theorem loop_terminates_iff_secret_guessed_check :
    ∃ outs, runGame 50 (List.map InEvent.line (["25"] ++ "50" :: [])) =
      RunOut.won outs (List.map InEvent.line []) :=
  (loop_terminates_iff_secret_guessed 50).1 ["25"] [] "50"
    (by
      intro x hx
      simp only [List.mem_singleton] at hx
      subst hx
      decide)
    (by decide)

/-- C3: the secret drawn at game start lies in `[1,100]` inclusive, for every
outcome of the random source. -/
theorem secret_number_in_range (r : Nat) :
    1 ≤ secret_number r ∧ secret_number r ≤ 100 := by
  unfold secret_number gen_range
  omega

/-- C4: a line that fails to parse restarts the iteration with a re-prompt:
the run on `line l :: es` is the run on `es` (same secret) with exactly one
more prompt printed and nothing else — same outcome, no comparison feedback,
no win message, no termination; and "abc", "" and "3.5" all fail to parse. -/
theorem parse_failure_reprompts (s : Nat) (l : String) (es : List InEvent)
    (h : parse (trim l) = none) :
    runGame s (InEvent.line l :: es) = addOuts [prompt] (runGame s es) ∧
    (runGame s (InEvent.line l :: es)).isWon = (runGame s es).isWon ∧
    outputsOf (runGame s (InEvent.line l :: es)) =
      prompt :: outputsOf (runGame s es) ∧
    parse (trim "abc") = none ∧ parse (trim "") = none ∧
    parse (trim "3.5") = none := by
  have h1 := runGame_cons_continue es (processLine_none (s := s) h)
  refine ⟨h1, ?_, ?_, by decide, by decide, by decide⟩
  · rw [h1, addOuts_isWon]
  · rw [h1, outputsOf_addOuts, List.singleton_append]

/-- Witness for C4 at secret 42, failing line "abc", remaining line "42". -/
theorem parse_failure_reprompts_check :
    runGame 42 [InEvent.line "abc", InEvent.line "42"] =
      addOuts [prompt] (runGame 42 [InEvent.line "42"]) ∧
    (runGame 42 [InEvent.line "abc", InEvent.line "42"]).isWon =
      (runGame 42 [InEvent.line "42"]).isWon ∧
    outputsOf (runGame 42 [InEvent.line "abc", InEvent.line "42"]) =
      prompt :: outputsOf (runGame 42 [InEvent.line "42"]) ∧
    parse (trim "abc") = none ∧ parse (trim "") = none ∧
    parse (trim "3.5") = none :=
  parse_failure_reprompts 42 "abc" [InEvent.line "42"] (by decide)

/-- C5: evaluation of the read-failure handling.  A device error makes
`expect` abort with the diagnostic "Failed to read line"; but at end of
stream `read_line` returns `Ok(0)` leaving the buffer empty, so `expect`
does not fire and every end-of-stream read is one more parse-failure
iteration: after any number `k` of them the loop is still running — it does
not abort and does not terminate, contrary to the stated policy that
end-of-stream is fatal. -/
theorem read_error_vs_eof (s k : Nat) :
    runGame s (InEvent.ioErr :: []) =
      RunOut.panicked [prompt] "Failed to read line" ∧
    runGame s (List.replicate k (InEvent.line "")) =
      RunOut.running (List.replicate k prompt) := by
  refine ⟨rfl, ?_⟩
  induction k with
  | zero => rfl
  | succ k ih =>
    rw [List.replicate_succ, List.replicate_succ,
      runGame_cons_continue _ (processLine_none (by decide)), ih]
    rfl

/-- C6: each iteration reads one line, trims surrounding whitespace (the
trailing newline included) and parses the trimmed text before any
comparison: trimming a whitespace-padded text yields the same characters as
trimming the bare text, and concretely the lines "50\n" and " 50 " behave in
an iteration exactly like "50". -/
theorem trim_then_parse (s : Nat) (w₁ w₂ cs : List Char)
    (h₁ : w₁.all rustIsWhitespace = true)
    (h₂ : w₂.all rustIsWhitespace = true) :
    trimChars (w₁ ++ cs ++ w₂) = trimChars cs ∧
    parse (trim "50\n") = some 50 ∧
    processLine s "50\n" = processLine s "50" ∧
    processLine s " 50 " = processLine s "50" :=
  ⟨trimChars_pad w₁ w₂ cs h₁ h₂, by decide, rfl, rfl⟩

/-- Witness for C6: padding "50" with a space and a newline. -/
theorem trim_then_parse_check :
    trimChars ([' '] ++ ['5', '0'] ++ ['\n']) = trimChars ['5', '0'] :=
  (trim_then_parse 1 [' '] ['\n'] ['5', '0'] (by decide) (by decide)).1

/-- C7: with secret 100 and inputs "101" then "100": 101 parses successfully
(no wrap-around, overflow or error), compares Greater and prints "Too big!";
then 100 compares Equal, prints "You win!" and the loop breaks. -/
theorem upper_bound_scenario :
    parse (trim "101") = some 101 ∧ cmp 101 100 = Ordering.gt ∧
    runGame 100 [InEvent.line "101", InEvent.line "100"] =
      RunOut.won [prompt, "Too big!", prompt, "You win!"] [] := by
  refine ⟨by decide, by decide, by decide⟩

/-- C8: the loop refines the spec's three-state machine started in
`AwaitingInput`: its parse/compare label trace is accepted by the machine and
ends in `Won` exactly when the run broke out of the loop (otherwise back in
`AwaitingInput`); "You win!" is printed only if some processed line parses to
the secret itself; and a won run's output ends at "You win!" — after `Won`
no further prompt or feedback is printed and the remaining input is unread. -/
theorem follows_state_machine (s : Nat) (ls : List String) :
    specRun GameState.awaitingInput (codeLabels s ls) =
      some (if (runGame s (ls.map InEvent.line)).isWon then GameState.won
            else GameState.awaitingInput) ∧
    ("You win!" ∈ outputsOf (runGame s (ls.map InEvent.line)) →
      ∃ l ∈ ls, parse (trim l) = some s) ∧
    ∀ o r, runGame s (ls.map InEvent.line) = RunOut.won o r →
      ∃ p, o = p ++ ["You win!"] :=
  ⟨specRun_codeLabels s ls, win_message_mem s ls,
    fun o r h => won_outputs_end s _ o r h⟩

/-- Witness for C8: with secret 42 and lines "abc" then "42" the win message
is printed, so some line parses to the secret. -/
theorem follows_state_machine_check :
    ∃ l ∈ ["abc", "42"], parse (trim l) = some 42 :=
  (follows_state_machine 42 ["abc", "42"]).2.1 (by decide)

/-- C9: guesses are parsed as 32-bit unsigned integers: every successfully
parsed guess is below 2^32; a negative numeral such as "-5" and an over-range
numeral such as "4294967296" fail to parse; and a line that fails to parse is
never compared — its iteration prints nothing and does not break. -/
theorem parsed_guess_is_u32 (s g : Nat) (l : String)
    (h : parse (trim l) = some g) :
    g < 4294967296 ∧
    parse (trim "-5") = none ∧ parse (trim "4294967296") = none ∧
    ∀ l2 : String, parse (trim l2) = none → processLine s l2 = ([], false) :=
  ⟨parse_lt_u32 _ g h, by decide, by decide, fun _ h2 => processLine_none h2⟩

/-- Witness for C9 at secret 42, parsed line "100", rejected line "-5". -/
theorem parsed_guess_is_u32_check :
    (100 : Nat) < 4294967296 ∧ parse (trim "-5") = none ∧
    parse (trim "4294967296") = none ∧ processLine 42 "-5" = ([], false) := by
  have h := parsed_guess_is_u32 42 100 "100" (by decide)
  exact ⟨h.1, h.2.1, h.2.2.1, h.2.2.2 "-5" (by decide)⟩

/-- C10: the program is deterministic in its two external inputs: an equal
random outcome and an equal sequence of read outcomes give identical output
lines and identical termination behavior. -/
theorem deterministic_run (r₁ r₂ : Nat) (es₁ es₂ : List InEvent)
    (hr : r₁ = r₂) (he : es₁ = es₂) :
    runProgram r₁ es₁ = runProgram r₂ es₂ := by
  rw [hr, he]

/-- Witness for C10: two identical runs coincide. -/
theorem deterministic_run_check :
    runProgram 7 [InEvent.line "8"] = runProgram 7 [InEvent.line "8"] :=
  deterministic_run 7 7 [InEvent.line "8"] [InEvent.line "8"] rfl rfl

end Guess
